import Mathlib

/-!
Verification of the synthetic order-data generator (`generate_data.py`).

The generator reads three record sets (customers, products, orders), then
 1. for each order draws a status-dependent number of distinct products,
    emits one OrderItem per selected product (sequential ids from 5001) and
    accumulates the order total from the item subtotals;
 2. rewrites each order with `total_amount` replaced by the accumulated total;
 3. builds a customer → purchased (product, order_date) map over items whose
    parent order is Delivered or Shipped, and emits at most 200 reviews
    (sequential ids from 6001) sampled from that map.

Modelling conventions:
 * Monetary values are exact integer cents.  The data model guarantees product
   prices carry 2-digit currency precision, so `quantity * unit_price` is an
   exact whole number of cents and the script's 2-decimal formatting
   (`f"{v:.2f}"`) is the identity on these values; the binary floating-point
   representation used transiently by the script is outside the embedding.
 * Calendar dates are integer day ordinals; `timedelta(days = n)` is `+ n`.
 * Randomness is an oracle of tick-indexed choice functions plus a validity
   predicate `Oracle.Valid` restricting each function to the support of the
   corresponding `random` primitive.  `random.uniform(0.2, 0.4)` is modelled by
   an arbitrary rational in [1/5, 2/5] given as numerator/denominator.
 * `random.sample(xs, k)` raises `ValueError` when `k > len(xs)`; the checked
   wrapper `sampleListChecked` returns `none` there, and a `none` anywhere
   aborts the run before any output exists (all writes in the script happen
   after the corresponding generation loop has finished).
-/

/-- Customer row. Only `customer_id` is ever read by the generator (the script
reads the full CSV rows but never uses the customers list). -/
structure Customer where
  customer_id : Nat
deriving DecidableEq, Repr

/-- Product row; `price` in exact integer cents (CSV column `price`, 2-decimal
currency precision). Other CSV columns are never read by the generator. -/
structure Product where
  product_id : Nat
  price : Int
deriving DecidableEq, Repr

/-- Order row as read from `orders.csv` (and as rewritten: the script writes
back exactly these seven fields). `total_amount` in cents; `order_date` as a
day ordinal. -/
structure OrderRec where
  order_id : Nat
  customer_id : Nat
  order_date : Int
  order_status : String
  total_amount : Int
  shipping_address : String
  payment_method : String
deriving DecidableEq, Repr

/-- OrderItem row as emitted to `order_items.csv`; money in cents. -/
structure OrderItem where
  order_item_id : Nat
  order_id : Nat
  product_id : Nat
  quantity : Nat
  unit_price : Int
  subtotal : Int
deriving DecidableEq, Repr

/-- Review row as emitted to `reviews.csv`; `review_date` as a day ordinal. -/
structure Review where
  review_id : Nat
  product_id : Nat
  customer_id : Nat
  rating : Nat
  review_text : String
  review_date : Int
deriving DecidableEq, Repr

/-- One (product, order_date) purchase entry of `customer_product_map`. -/
structure PPair where
  product_id : Nat
  order_date : Int
deriving DecidableEq, Repr

/-- The random choices a run consumes, indexed by a tick so that every call
site may observe a different value. -/
structure Oracle where
  randint : Nat → Nat → Nat → Nat
  sampleProd : Nat → List Product → Nat → List Product
  samplePair : Nat → List PPair → Nat → List PPair
  uniFracNum : Nat → Nat
  uniFracDen : Nat → Nat
  ratingChoice : Nat → Nat
  textChoice : Nat → Nat

/-- Support of the `random` primitives used by the script:
`randint lo hi` lies in `[lo, hi]`; `sample xs k` (when `k ≤ |xs|`) returns `k`
elements drawn without replacement, i.e. a sub-permutation of `xs`;
`uniform(0.2, 0.4)` returns `uniFracNum/uniFracDen ∈ [1/5, 2/5]`;
`choices([5,4,3,2,1], ...)` returns a listed rating; `choice` on a 5-element
text pool returns an index below 5. -/
def Oracle.Valid (g : Oracle) : Prop :=
  (∀ t lo hi, lo ≤ hi → lo ≤ g.randint t lo hi ∧ g.randint t lo hi ≤ hi) ∧
  (∀ t xs k, k ≤ xs.length →
    (g.sampleProd t xs k).length = k ∧ (g.sampleProd t xs k).Subperm xs) ∧
  (∀ t xs k, k ≤ xs.length →
    (g.samplePair t xs k).length = k ∧ (g.samplePair t xs k).Subperm xs) ∧
  (∀ t, g.uniFracDen t ≠ 0 ∧ g.uniFracDen t ≤ 5 * g.uniFracNum t ∧
    5 * g.uniFracNum t ≤ 2 * g.uniFracDen t) ∧
  (∀ t, g.ratingChoice t ∈ ([5, 4, 3, 2, 1] : List Nat)) ∧
  (∀ t, g.textChoice t < 5)

/-- `random.sample(xs, k)` with its precondition made explicit: Python raises
`ValueError` when `k > len(xs)`, modelled as `none`. -/
def sampleListChecked {α : Type} (s : List α → Nat → List α) (xs : List α)
    (k : Nat) : Option (List α) :=
  if k ≤ xs.length then some (s xs k) else none

/-- Inner loop of item generation (`for product in selected_products`): one
OrderItem per selected product, quantity `randint(1, 3)`, subtotal
`quantity * unit_price`, subtotals accumulated into the running order total,
`order_item_id` incremented per item.  Returns (items, total, tick, next id). -/
def genItemsList (g : Oracle) (oid : Nat) :
    List Product → Nat → Nat → List OrderItem × Int × Nat × Nat
  | [], t, iid => ([], 0, t, iid)
  | p :: ps, t, iid =>
    let q := g.randint t 1 3
    let sub := (q : Int) * p.price
    let r := genItemsList g oid ps (t + 1) (iid + 1)
    ({ order_item_id := iid, order_id := oid, product_id := p.product_id,
       quantity := q, unit_price := p.price, subtotal := sub } :: r.1,
     sub + r.2.1, r.2.2.1, r.2.2.2)

/-- Status-dependent item count: `num_items = random.randint(1, 3)` when the
order's status is Cancelled, else `random.randint(1, 5)`. -/
def numItemsFor (g : Oracle) (t : Nat) (o : OrderRec) : Nat :=
  if o.order_status = "Cancelled" then g.randint t 1 3 else g.randint t 1 5

/-- Body of the per-order loop: the status-dependent item count,
`selected_products = random.sample(products, num_items)`; then the item loop;
finally the order's `total_amount` is replaced by the accumulated total
(`calculated_total`). -/
def genForOrder (g : Oracle) (products : List Product) (o : OrderRec)
    (t iid : Nat) : Option (List OrderItem × OrderRec × Nat × Nat) :=
  match sampleListChecked (g.sampleProd (t + 1)) products (numItemsFor g t o) with
  | none => none
  | some sel =>
    let r := genItemsList g o.order_id sel (t + 2) iid
    some (r.1, { o with total_amount := r.2.1 }, r.2.2.1, r.2.2.2)

/-- The per-order loop (`for order in orders`) over the whole orders list,
concatenating emitted items in emission order and collecting the rewritten
order rows. -/
def genAllOrders (g : Oracle) (products : List Product) :
    List OrderRec → Nat → Nat → Option (List OrderItem × List OrderRec × Nat × Nat)
  | [], t, iid => some ([], [], t, iid)
  | o :: os, t, iid =>
    match genForOrder g products o t iid with
    | none => none
    | some (items, oOut, t2, iid2) =>
      match genAllOrders g products os t2 iid2 with
      | none => none
      | some (restItems, outs, t3, iid3) =>
        some (items ++ restItems, oOut :: outs, t3, iid3)

/-- Appends one purchased pair to a customer's entry of the map, inserting the
customer at the end on first appearance (Python dict insertion order). -/
def addPair : List (Nat × List PPair) → Nat → PPair → List (Nat × List PPair)
  | [], c, pp => [(c, [pp])]
  | (c', pos) :: rest, c, pp =>
    if c' = c then (c', pos ++ [pp]) :: rest
    else (c', pos) :: addPair rest c pp

/-- Builds `customer_product_map`: for each order item, look up the first
order with the item's `order_id` (`next(...)`), and if it exists and its
status is Delivered or Shipped, record (product_id, order_date) under the
order's customer. -/
def buildMap (os : List OrderRec) :
    List OrderItem → List (Nat × List PPair) → List (Nat × List PPair)
  | [], m => m
  | it :: its, m =>
    match os.find? (fun o => o.order_id == it.order_id) with
    | some o =>
      if o.order_status = "Delivered" ∨ o.order_status = "Shipped" then
        buildMap os its (addPair m o.customer_id
          { product_id := it.product_id, order_date := o.order_date })
      else buildMap os its m
    | none => buildMap os its m

/-- The fixed `review_texts` pools, keyed by rating (5 texts per rating). -/
def reviewTexts : Nat → List String
  | 5 => ["Excellent product! Exceeded my expectations.",
          "Perfect! Exactly what I needed.",
          "Outstanding quality and fast delivery.",
          "Absolutely love it! Highly recommend.",
          "Best purchase ever! Five stars!"]
  | 4 => ["Very good product, happy with purchase.",
          "Good quality, works as expected.",
          "Great product, minor issues but overall satisfied.",
          "Solid product, would buy again.",
          "Nice item, good value for money."]
  | 3 => ["Decent product, meets basic needs.",
          "Average quality, nothing special.",
          "It's okay, works fine but not amazing.",
          "Fair product for the price.",
          "Acceptable, does what it says."]
  | 2 => ["Disappointed, expected better quality.",
          "Not great, has some issues.",
          "Below expectations, wouldn't recommend.",
          "Poor quality, not worth the price.",
          "Unsatisfied, had problems with it."]
  | 1 => ["Terrible product, waste of money.",
          "Very disappointed, does not work.",
          "Awful quality, returned immediately.",
          "Complete disaster, do not buy.",
          "Worst purchase, totally unusable."]
  | _ => []

/-- Inner review loop (`for product_order in reviewed_products`): before each
emission the global cap is checked (`if review_count >= 200: break`); a review
carries a weighted-choice rating, a text from that rating's pool, and
`review_date = order_date + randint(1, 30)`; `review_id` and `review_count`
increment per emitted review.  Returns (reviews, tick, next id, count). -/
def genReviewsForCustomer (g : Oracle) (cid : Nat) :
    List PPair → Nat → Nat → Nat → List Review × Nat × Nat × Nat
  | [], t, rid, cnt => ([], t, rid, cnt)
  | pp :: pps, t, rid, cnt =>
    if 200 ≤ cnt then ([], t, rid, cnt)
    else
      let rat := g.ratingChoice t
      let txt := (reviewTexts rat).getD (g.textChoice (t + 1)) ""
      let offset := g.randint (t + 2) 1 30
      let rev : Review :=
        { review_id := rid, product_id := pp.product_id, customer_id := cid,
          rating := rat, review_text := txt,
          review_date := pp.order_date + (offset : Int) }
      let r := genReviewsForCustomer g cid pps (t + 3) (rid + 1) (cnt + 1)
      (rev :: r.1, r.2)

/-- Outer review loop (`for customer_id, product_orders in
customer_product_map.items()`): break when the cap is reached; otherwise
`num_reviews = max(1, int(len(product_orders) * uniform(0.2, 0.4)))` (the
uniform value is `uniFracNum/uniFracDen`, and `int(len * a/b) = len * a / b`
by floor division), then `random.sample` of `min(num_reviews, len)` pairs, the
inner loop, and the remaining customers. -/
def genReviewsAll (g : Oracle) :
    List (Nat × List PPair) → Nat → Nat → Nat →
      Option (List Review × Nat × Nat × Nat)
  | [], t, rid, cnt => some ([], t, rid, cnt)
  | (cid, pos) :: rest, t, rid, cnt =>
    if 200 ≤ cnt then some ([], t, rid, cnt)
    else
      let numRev := max 1 (pos.length * g.uniFracNum t / g.uniFracDen t)
      match sampleListChecked (g.samplePair (t + 1)) pos (min numRev pos.length) with
      | none => none
      | some sel =>
        let r := genReviewsForCustomer g cid sel (t + 2) rid cnt
        match genReviewsAll g rest r.2.1 r.2.2.1 r.2.2.2 with
        | none => none
        | some (revs2, t3, rid3, cnt3) => some (r.1 ++ revs2, t3, rid3, cnt3)

/-- The state of the `data/` record sets after a successful run: the script
writes `order_items.csv`, rewrites `orders.csv`, writes `reviews.csv`, and
never writes the customers or products files. -/
structure DataStore where
  customers : List Customer
  products : List Product
  orders : List OrderRec
  order_items : List OrderItem
  reviews : List Review
deriving DecidableEq, Repr

/-- One full run of `generate_data.py`: item generation over all orders
(item ids from 5001), the customer/product map built from the emitted items
and the rewritten orders list, review generation (review ids from 6001,
count capped at 200).  `none` models a run aborted by an uncaught exception;
every abort point precedes every file write, so an aborted run writes
nothing. -/
def runGenerator (g : Oracle) (customers : List Customer)
    (products : List Product) (orders : List OrderRec) : Option DataStore :=
  match genAllOrders g products orders 0 5001 with
  | none => none
  | some (items, outs, t, _) =>
    match genReviewsAll g (buildMap outs items []) t 6001 0 with
    | none => none
    | some (revs, _, _, _) =>
      some { customers := customers, products := products, orders := outs,
             order_items := items, reviews := revs }

/-- A concrete choice oracle used to evaluate the generator on examples: every
`randint` returns its lower bound, every sample takes the first `k` elements,
the uniform fraction is exactly 2/5, every rating is 5 with text index 0. -/
def takeOracle : Oracle where
  randint := fun _ lo _ => lo
  sampleProd := fun _ xs k => xs.take k
  samplePair := fun _ xs k => xs.take k
  uniFracNum := fun _ => 2
  uniFracDen := fun _ => 5
  ratingChoice := fun _ => 5
  textChoice := fun _ => 0

/-- Example catalog: five products priced $10.00 … $50.00 (cents). -/
def exProducts : List Product :=
  [⟨1, 1000⟩, ⟨2, 2000⟩, ⟨3, 3000⟩, ⟨4, 4000⟩, ⟨5, 5000⟩]

/-- Example order: Delivered, customer 1, date ordinal 20000. -/
def exOrder : OrderRec := ⟨101, 1, 20000, "Delivered", 0, "addr", "card"⟩

/-- The store `runGenerator takeOracle [] exProducts [exOrder]` produces: one
item (quantity 1 of product 1), the order rewritten to a $10.00 total, one
review of product 1 dated one day after the order. -/
def exStore : DataStore where
  customers := []
  products := exProducts
  orders := [⟨101, 1, 20000, "Delivered", 1000, "addr", "card"⟩]
  order_items := [⟨5001, 101, 1, 1, 1000, 1000⟩]
  reviews :=
    [⟨6001, 1, 1, 5, "Excellent product! Exceeded my expectations.", 20001⟩]

/-- Five Delivered orders of the one customer 1 on five distinct dates,
against a one-product catalog: every line item is product 1, so the
customer's purchased-pair pool holds product 1 under five dates. -/
def dupOrders : List OrderRec :=
  [⟨101, 1, 100, "Delivered", 0, "a", "m"⟩,
   ⟨102, 1, 200, "Delivered", 0, "a", "m"⟩,
   ⟨103, 1, 300, "Delivered", 0, "a", "m"⟩,
   ⟨104, 1, 400, "Delivered", 0, "a", "m"⟩,
   ⟨105, 1, 500, "Delivered", 0, "a", "m"⟩]

/-- One-product catalog for the duplicate-review scenario. -/
def dupProducts : List Product := [⟨1, 1000⟩]

/-- The single rewritten order of `exStore`: all fields of `exOrder` kept,
`total_amount` replaced by the reconciled $10.00. -/
def exOutOrder : OrderRec := ⟨101, 1, 20000, "Delivered", 1000, "addr", "card"⟩

/-- The single review of `exStore`. -/
def exReview : Review :=
  ⟨6001, 1, 1, 5, "Excellent product! Exceeded my expectations.", 20001⟩

/-- The store `runGenerator takeOracle [] dupProducts dupOrders` produces:
five one-item orders of product 1, and two reviews (ids 6001 and 6002) both
by customer 1 of product 1 — one per sampled (product, order_date) pair. -/
def dupStore : DataStore where
  customers := []
  products := dupProducts
  orders :=
    [⟨101, 1, 100, "Delivered", 1000, "a", "m"⟩,
     ⟨102, 1, 200, "Delivered", 1000, "a", "m"⟩,
     ⟨103, 1, 300, "Delivered", 1000, "a", "m"⟩,
     ⟨104, 1, 400, "Delivered", 1000, "a", "m"⟩,
     ⟨105, 1, 500, "Delivered", 1000, "a", "m"⟩]
  order_items :=
    [⟨5001, 101, 1, 1, 1000, 1000⟩, ⟨5002, 102, 1, 1, 1000, 1000⟩,
     ⟨5003, 103, 1, 1, 1000, 1000⟩, ⟨5004, 104, 1, 1, 1000, 1000⟩,
     ⟨5005, 105, 1, 1, 1000, 1000⟩]
  reviews :=
    [⟨6001, 1, 1, 5, "Excellent product! Exceeded my expectations.", 101⟩,
     ⟨6002, 1, 1, 5, "Excellent product! Exceeded my expectations.", 201⟩]

/-- A sub-permutation maps to a sub-permutation. -/
theorem subperm_map {α β : Type} (f : α → β) {l₁ l₂ : List α}
    (h : l₁.Subperm l₂) : (l₁.map f).Subperm (l₂.map f) := by
  obtain ⟨l, hp, hs⟩ := h
  exact ⟨l.map f, hp.map f, hs.map f⟩

/-- Elements drawn without replacement from a duplicate-free list are
pairwise distinct. -/
theorem subperm_nodup {α : Type} {l₁ l₂ : List α}
    (h : l₁.Subperm l₂) (hnd : l₂.Nodup) : l₁.Nodup := by
  obtain ⟨l, hp, hs⟩ := h
  exact hp.nodup_iff.mp (hs.nodup hnd)

/-- `takeOracle` only makes choices inside the support of the corresponding
`random` primitives. -/
theorem takeOracle_valid : takeOracle.Valid := by
  refine ⟨fun t lo hi h => ⟨le_refl lo, h⟩, fun t xs k hk => ?_,
    fun t xs k hk => ?_, fun t => ⟨by simp [takeOracle], by simp [takeOracle],
      by simp [takeOracle]⟩,
    fun t => by simp [takeOracle], fun t => by simp [takeOracle]⟩ <;>
  exact ⟨by simpa [takeOracle] using Nat.min_eq_left hk,
    (List.take_sublist k xs).subperm⟩

/-- Inversion of the checked `random.sample` call: success forces the
requested size within the pool and yields the oracle's sample. -/
theorem sampleListChecked_some {α : Type} {s : List α → Nat → List α}
    {xs : List α} {k : Nat} {r : List α}
    (h : sampleListChecked s xs k = some r) : k ≤ xs.length ∧ r = s xs k := by
  unfold sampleListChecked at h
  by_cases hk : k ≤ xs.length
  · rw [if_pos hk] at h
    exact ⟨hk, (Option.some.inj h).symm⟩
  · rw [if_neg hk] at h
    exact absurd h (by simp)

/-- The item loop emits one OrderItem per selected product. -/
theorem genItemsList_length (g : Oracle) (oid : Nat) (ps : List Product)
    (t iid : Nat) : (genItemsList g oid ps t iid).1.length = ps.length := by
  induction ps generalizing t iid with
  | nil => rfl
  | cons p ps ih => simp [genItemsList, ih]

/-- The sum of the emitted subtotals is exactly the accumulated order total. -/
theorem genItemsList_sum (g : Oracle) (oid : Nat) (ps : List Product)
    (t iid : Nat) :
    ((genItemsList g oid ps t iid).1.map (fun it => it.subtotal)).sum
      = (genItemsList g oid ps t iid).2.1 := by
  induction ps generalizing t iid with
  | nil => rfl
  | cons p ps ih => simp [genItemsList, ih]

/-- Every item the loop emits references the order being processed. -/
theorem genItemsList_order_id (g : Oracle) (oid : Nat) (ps : List Product)
    (t iid : Nat) :
    ∀ it ∈ (genItemsList g oid ps t iid).1, it.order_id = oid := by
  induction ps generalizing t iid with
  | nil => intro it h; exact absurd h (List.not_mem_nil it)
  | cons p ps ih =>
    intro it h
    rw [genItemsList, List.mem_cons] at h
    rcases h with h | h
    · rw [h]
    · exact ih (t + 1) (iid + 1) it h

/-- The items emitted for one order reference exactly the selected products,
in selection order. -/
theorem genItemsList_pids (g : Oracle) (oid : Nat) (ps : List Product)
    (t iid : Nat) :
    (genItemsList g oid ps t iid).1.map (fun it => it.product_id)
      = ps.map (fun p => p.product_id) := by
  induction ps generalizing t iid with
  | nil => rfl
  | cons p ps ih => simp [genItemsList, ih]

/-- `order_item_id` values of one order's batch are consecutive from the
running counter, which advances by the batch length. -/
theorem genItemsList_ids (g : Oracle) (oid : Nat) (ps : List Product)
    (t iid : Nat) :
    (genItemsList g oid ps t iid).1.map (fun it => it.order_item_id)
        = List.range' iid ps.length ∧
      (genItemsList g oid ps t iid).2.2.2 = iid + ps.length := by
  induction ps generalizing t iid with
  | nil => exact ⟨rfl, rfl⟩
  | cons p ps ih =>
    refine ⟨?_, ?_⟩
    · simp [genItemsList, (ih (t + 1) (iid + 1)).1, List.range'_succ]
    · simpa [genItemsList, (ih (t + 1) (iid + 1)).2] using by omega

/-- Inversion of one per-order step: success forces the drawn item count
within the catalog and determines the batch, the rewritten order and the
advanced item-id counter via the item loop on the sampled products. -/
theorem genForOrder_inv {g : Oracle} {ps : List Product} {o : OrderRec}
    {t iid : Nat} {res : List OrderItem × OrderRec × Nat × Nat}
    (h : genForOrder g ps o t iid = some res) :
    numItemsFor g t o ≤ ps.length ∧
      res.1 = (genItemsList g o.order_id
        (g.sampleProd (t + 1) ps (numItemsFor g t o)) (t + 2) iid).1 ∧
      res.2.1 = { o with total_amount := (genItemsList g o.order_id
        (g.sampleProd (t + 1) ps (numItemsFor g t o)) (t + 2) iid).2.1 } ∧
      res.2.2.2 = (genItemsList g o.order_id
        (g.sampleProd (t + 1) ps (numItemsFor g t o)) (t + 2) iid).2.2.2 := by
  unfold genForOrder at h
  cases hs : sampleListChecked (g.sampleProd (t + 1)) ps (numItemsFor g t o) with
  | none => rw [hs] at h; exact absurd h (by simp)
  | some sel =>
    rw [hs] at h
    obtain ⟨hk, hsel⟩ := sampleListChecked_some hs
    have hres := Option.some.inj h
    subst hsel
    rw [← hres]
    exact ⟨hk, rfl, rfl, rfl⟩

/-- The rewritten rows keep the input rows' order identifiers, in order. -/
theorem genAllOrders_out_ids {g : Oracle} {ps : List Product}
    {os : List OrderRec} {t iid : Nat}
    {items : List OrderItem} {outs : List OrderRec} {t3 iid3 : Nat}
    (h : genAllOrders g ps os t iid = some (items, outs, t3, iid3)) :
    outs.map (fun o => o.order_id) = os.map (fun o => o.order_id) := by
  induction os generalizing t iid items outs t3 iid3 with
  | nil =>
    simp only [genAllOrders, Option.some.injEq, Prod.mk.injEq] at h
    obtain ⟨h1, h2, h3, h4⟩ := h
    simp [← h2]
  | cons o os ih =>
    cases hf : genForOrder g ps o t iid with
    | none => simp [genAllOrders, hf] at h
    | some r =>
      obtain ⟨batch, oOut, t2, iid2⟩ := r
      cases ha : genAllOrders g ps os t2 iid2 with
      | none => simp [genAllOrders, hf, ha] at h
      | some r2 =>
        obtain ⟨restItems, outs2, t3b, iid3b⟩ := r2
        simp only [genAllOrders, hf, ha, Option.some.injEq, Prod.mk.injEq] at h
        obtain ⟨hi, ho, ht, hiid⟩ := h
        subst ho
        have hout := (genForOrder_inv hf).2.2.1
        simp only at hout
        simp [List.map_cons, ih ha, hout]

/-- Every emitted item references one of the processed orders. -/
theorem genAllOrders_item_oids {g : Oracle} {ps : List Product}
    {os : List OrderRec} {t iid : Nat}
    {items : List OrderItem} {outs : List OrderRec} {t3 iid3 : Nat}
    (h : genAllOrders g ps os t iid = some (items, outs, t3, iid3)) :
    ∀ it ∈ items, it.order_id ∈ os.map (fun o => o.order_id) := by
  induction os generalizing t iid items outs t3 iid3 with
  | nil =>
    simp only [genAllOrders, Option.some.injEq, Prod.mk.injEq] at h
    obtain ⟨h1, h2, h3, h4⟩ := h
    rw [← h1]
    intro it hit
    exact absurd hit (List.not_mem_nil it)
  | cons o os ih =>
    cases hf : genForOrder g ps o t iid with
    | none => simp [genAllOrders, hf] at h
    | some r =>
      obtain ⟨batch, oOut, t2, iid2⟩ := r
      cases ha : genAllOrders g ps os t2 iid2 with
      | none => simp [genAllOrders, hf, ha] at h
      | some r2 =>
        obtain ⟨restItems, outs2, t3b, iid3b⟩ := r2
        simp only [genAllOrders, hf, ha, Option.some.injEq, Prod.mk.injEq] at h
        obtain ⟨hi, ho, ht, hiid⟩ := h
        subst hi
        intro it hit
        rcases List.mem_append.mp hit with hb | hr
        · have hb1 := (genForOrder_inv hf).2.1
          simp only at hb1
          rw [hb1] at hb
          have : it.order_id = o.order_id :=
            genItemsList_order_id g o.order_id _ _ _ it hb
          simp [this]
        · exact List.mem_cons_of_mem _ (ih ha it hr)

/-- Item identifiers across the whole run are consecutive from the initial
counter value, which finishes advanced by the total number of items. -/
theorem genAllOrders_ids {g : Oracle} {ps : List Product}
    {os : List OrderRec} {t iid : Nat}
    {items : List OrderItem} {outs : List OrderRec} {t3 iid3 : Nat}
    (h : genAllOrders g ps os t iid = some (items, outs, t3, iid3)) :
    items.map (fun it => it.order_item_id) = List.range' iid items.length ∧
      iid3 = iid + items.length := by
  induction os generalizing t iid items outs t3 iid3 with
  | nil =>
    simp only [genAllOrders, Option.some.injEq, Prod.mk.injEq] at h
    obtain ⟨h1, h2, h3, h4⟩ := h
    rw [← h1, ← h4]
    exact ⟨rfl, rfl⟩
  | cons o os ih =>
    cases hf : genForOrder g ps o t iid with
    | none => simp [genAllOrders, hf] at h
    | some r =>
      obtain ⟨batch, oOut, t2, iid2⟩ := r
      cases ha : genAllOrders g ps os t2 iid2 with
      | none => simp [genAllOrders, hf, ha] at h
      | some r2 =>
        obtain ⟨restItems, outs2, t3b, iid3b⟩ := r2
        simp only [genAllOrders, hf, ha, Option.some.injEq, Prod.mk.injEq] at h
        obtain ⟨hi, ho, ht, hiid⟩ := h
        subst hi hiid
        have hb1 := (genForOrder_inv hf).2.1
        have hb4 := (genForOrder_inv hf).2.2.2
        simp only at hb1 hb4
        obtain ⟨hmap, hnext⟩ := genItemsList_ids g o.order_id
          (g.sampleProd (t + 1) ps (numItemsFor g t o)) (t + 2) iid
        obtain ⟨hmap2, hnext2⟩ := ih ha
        have hblen : batch.length =
            (g.sampleProd (t + 1) ps (numItemsFor g t o)).length := by
          rw [hb1, genItemsList_length]
        have hiid2 : iid2 = iid + batch.length := by
          rw [hb4, hnext, hblen]
        constructor
        · rw [List.map_append, hmap2, hiid2, List.length_append, hb1, hmap,
            genItemsList_length]
          have h5 := List.range'_append iid
            (g.sampleProd (t + 1) ps (numItemsFor g t o)).length
            restItems.length 1
          simp only [one_mul] at h5
          rw [h5]
          congr 1
          omega
        · rw [hnext2, hiid2, List.length_append]
          omega

/-- Frame of the order rewrite: every field except `total_amount` is written
back unchanged, row by row. -/
theorem genAllOrders_frame {g : Oracle} {ps : List Product}
    {os : List OrderRec} {t iid : Nat}
    {items : List OrderItem} {outs : List OrderRec} {t3 iid3 : Nat}
    (h : genAllOrders g ps os t iid = some (items, outs, t3, iid3)) :
    List.Forall₂ (fun o out =>
      out.order_id = o.order_id ∧ out.customer_id = o.customer_id ∧
      out.order_date = o.order_date ∧ out.order_status = o.order_status ∧
      out.shipping_address = o.shipping_address ∧
      out.payment_method = o.payment_method) os outs := by
  induction os generalizing t iid items outs t3 iid3 with
  | nil =>
    simp only [genAllOrders, Option.some.injEq, Prod.mk.injEq] at h
    obtain ⟨h1, h2, h3, h4⟩ := h
    rw [← h2]
    exact List.Forall₂.nil
  | cons o os ih =>
    cases hf : genForOrder g ps o t iid with
    | none => simp [genAllOrders, hf] at h
    | some r =>
      obtain ⟨batch, oOut, t2, iid2⟩ := r
      cases ha : genAllOrders g ps os t2 iid2 with
      | none => simp [genAllOrders, hf, ha] at h
      | some r2 =>
        obtain ⟨restItems, outs2, t3b, iid3b⟩ := r2
        simp only [genAllOrders, hf, ha, Option.some.injEq, Prod.mk.injEq] at h
        obtain ⟨hi, ho, ht, hiid⟩ := h
        subst ho
        have hout := (genForOrder_inv hf).2.2.1
        simp only at hout
        exact List.forall₂_cons.mpr ⟨by rw [hout]; exact ⟨rfl, rfl, rfl, rfl, rfl, rfl⟩, ih ha⟩

/-- Total reconciliation over the run: with pairwise-distinct input order
identifiers, the items carrying one rewritten order's identifier sum exactly
to that order's rewritten `total_amount`. -/
theorem genAllOrders_sum {g : Oracle} {ps : List Product}
    {os : List OrderRec} {t iid : Nat}
    {items : List OrderItem} {outs : List OrderRec} {t3 iid3 : Nat}
    (hnd : (os.map (fun o => o.order_id)).Nodup)
    (h : genAllOrders g ps os t iid = some (items, outs, t3, iid3)) :
    ∀ out ∈ outs,
      ((items.filter (fun it => it.order_id == out.order_id)).map
        (fun it => it.subtotal)).sum = out.total_amount := by
  induction os generalizing t iid items outs t3 iid3 with
  | nil =>
    simp only [genAllOrders, Option.some.injEq, Prod.mk.injEq] at h
    obtain ⟨h1, h2, h3, h4⟩ := h
    rw [← h2]
    intro out hout
    exact absurd hout (List.not_mem_nil out)
  | cons o os ih =>
    cases hf : genForOrder g ps o t iid with
    | none => simp [genAllOrders, hf] at h
    | some r =>
      obtain ⟨batch, oOut, t2, iid2⟩ := r
      cases ha : genAllOrders g ps os t2 iid2 with
      | none => simp [genAllOrders, hf, ha] at h
      | some r2 =>
        obtain ⟨restItems, outs2, t3b, iid3b⟩ := r2
        simp only [genAllOrders, hf, ha, Option.some.injEq, Prod.mk.injEq] at h
        obtain ⟨hi, ho, ht, hiid⟩ := h
        subst hi ho
        rw [List.map_cons, List.nodup_cons] at hnd
        obtain ⟨hnotin, hnd2⟩ := hnd
        have hb1 := (genForOrder_inv hf).2.1
        have hb2 := (genForOrder_inv hf).2.2.1
        simp only at hb1 hb2
        have hbatch_oid : ∀ it ∈ batch, it.order_id = o.order_id := by
          intro it hit
          rw [hb1] at hit
          exact genItemsList_order_id g o.order_id _ _ _ it hit
        intro out hout
        rcases List.mem_cons.mp hout with rfl | hmem
        · rw [List.filter_append]
          have h1 : batch.filter (fun it => it.order_id == out.order_id) = batch := by
            refine List.filter_eq_self.mpr fun it hit => ?_
            rw [beq_iff_eq, hbatch_oid it hit, hb2]
          have h2 : restItems.filter (fun it => it.order_id == out.order_id) = [] := by
            refine List.filter_eq_nil_iff.mpr fun it hit => ?_
            rw [beq_iff_eq]
            intro hcontra
            apply hnotin
            have := genAllOrders_item_oids ha it hit
            rw [hcontra, hb2] at this
            simpa using this
          rw [h1, h2, List.append_nil, hb1, genItemsList_sum, hb2]
        · rw [List.filter_append]
          have hmemid : out.order_id ∈ os.map (fun o => o.order_id) := by
            rw [← genAllOrders_out_ids ha]
            exact List.mem_map.mpr ⟨out, hmem, rfl⟩
          have h1 : batch.filter (fun it => it.order_id == out.order_id) = [] := by
            refine List.filter_eq_nil_iff.mpr fun it hit => ?_
            rw [beq_iff_eq, hbatch_oid it hit]
            intro hcontra
            exact hnotin (hcontra ▸ hmemid)
          rw [h1, List.nil_append]
          exact ih hnd2 ha out hmem

/-- The status-dependent draw lies in [1, 3] for Cancelled orders and in
[1, 5] otherwise. -/
theorem numItemsFor_bounds {g : Oracle} {t : Nat} {o : OrderRec}
    (hval : g.Valid) :
    1 ≤ numItemsFor g t o ∧ numItemsFor g t o ≤ 5 ∧
      (o.order_status = "Cancelled" → numItemsFor g t o ≤ 3) := by
  unfold numItemsFor
  by_cases hc : o.order_status = "Cancelled"
  · rw [if_pos hc]
    obtain ⟨h1, h2⟩ := hval.1 t 1 3 (by omega)
    exact ⟨h1, by omega, fun _ => h2⟩
  · rw [if_neg hc]
    obtain ⟨h1, h2⟩ := hval.1 t 1 5 (by omega)
    exact ⟨h1, h2, fun hcon => absurd hcon hc⟩

/-- Item-count bounds and product distinctness per rewritten order: the items
carrying one order's identifier number between 1 and the status-dependent cap
and reference pairwise distinct products. -/
theorem genAllOrders_counts {g : Oracle} {ps : List Product}
    {os : List OrderRec} {t iid : Nat}
    {items : List OrderItem} {outs : List OrderRec} {t3 iid3 : Nat}
    (hval : g.Valid)
    (hndp : (ps.map (fun p => p.product_id)).Nodup)
    (hnd : (os.map (fun o => o.order_id)).Nodup)
    (h : genAllOrders g ps os t iid = some (items, outs, t3, iid3)) :
    ∀ out ∈ outs,
      1 ≤ (items.filter (fun it => it.order_id == out.order_id)).length ∧
      (items.filter (fun it => it.order_id == out.order_id)).length ≤ 5 ∧
      (out.order_status = "Cancelled" →
        (items.filter (fun it => it.order_id == out.order_id)).length ≤ 3) ∧
      ((items.filter (fun it => it.order_id == out.order_id)).map
        (fun it => it.product_id)).Nodup := by
  induction os generalizing t iid items outs t3 iid3 with
  | nil =>
    simp only [genAllOrders, Option.some.injEq, Prod.mk.injEq] at h
    obtain ⟨h1, h2, h3, h4⟩ := h
    rw [← h2]
    intro out hout
    exact absurd hout (List.not_mem_nil out)
  | cons o os ih =>
    cases hf : genForOrder g ps o t iid with
    | none => simp [genAllOrders, hf] at h
    | some r =>
      obtain ⟨batch, oOut, t2, iid2⟩ := r
      cases ha : genAllOrders g ps os t2 iid2 with
      | none => simp [genAllOrders, hf, ha] at h
      | some r2 =>
        obtain ⟨restItems, outs2, t3b, iid3b⟩ := r2
        simp only [genAllOrders, hf, ha, Option.some.injEq, Prod.mk.injEq] at h
        obtain ⟨hi, ho, ht, hiid⟩ := h
        subst hi ho
        rw [List.map_cons, List.nodup_cons] at hnd
        obtain ⟨hnotin, hnd2⟩ := hnd
        have hk := (genForOrder_inv hf).1
        have hb1 := (genForOrder_inv hf).2.1
        have hb2 := (genForOrder_inv hf).2.2.1
        simp only at hb1 hb2
        obtain ⟨hslen, hssub⟩ := hval.2.1 (t + 1) ps (numItemsFor g t o) hk
        have hbatch_oid : ∀ it ∈ batch, it.order_id = o.order_id := by
          intro it hit
          rw [hb1] at hit
          exact genItemsList_order_id g o.order_id _ _ _ it hit
        intro out hout
        rcases List.mem_cons.mp hout with rfl | hmem
        · have h1 : batch.filter (fun it => it.order_id == out.order_id) = batch := by
            refine List.filter_eq_self.mpr fun it hit => ?_
            rw [beq_iff_eq, hbatch_oid it hit, hb2]
          have h2 : restItems.filter (fun it => it.order_id == out.order_id) = [] := by
            refine List.filter_eq_nil_iff.mpr fun it hit => ?_
            rw [beq_iff_eq]
            intro hcontra
            apply hnotin
            have := genAllOrders_item_oids ha it hit
            rw [hcontra, hb2] at this
            simpa using this
          rw [List.filter_append, h1, h2, List.append_nil]
          have hblen : batch.length = numItemsFor g t o := by
            rw [hb1, genItemsList_length, hslen]
          obtain ⟨hlo, hhi, hcan⟩ := numItemsFor_bounds (t := t) (o := o) hval
          have hstat : out.order_status = o.order_status := by rw [hb2]
          refine ⟨by omega, by omega, fun hc => ?_, ?_⟩
          · rw [hstat] at hc
            have := hcan hc
            omega
          · have hpids : batch.map (fun it => it.product_id) =
                (g.sampleProd (t + 1) ps (numItemsFor g t o)).map
                  (fun p => p.product_id) := by
              rw [hb1, genItemsList_pids]
            rw [hpids]
            exact subperm_nodup (subperm_map _ hssub) hndp
        · have hmemid : out.order_id ∈ os.map (fun o => o.order_id) := by
            rw [← genAllOrders_out_ids ha]
            exact List.mem_map.mpr ⟨out, hmem, rfl⟩
          have h1 : batch.filter (fun it => it.order_id == out.order_id) = [] := by
            refine List.filter_eq_nil_iff.mpr fun it hit => ?_
            rw [beq_iff_eq, hbatch_oid it hit]
            intro hcontra
            exact hnotin (hcontra ▸ hmemid)
          rw [List.filter_append, h1, List.nil_append]
          exact ih hnd2 ha out hmem

/-- A pair found in the map after `addPair` was either already recorded or is
the pair just added under the given customer. -/
theorem addPair_mem : ∀ (m : List (Nat × List PPair)) (c : Nat) (pp : PPair)
    {c2 : Nat} {pos2 : List PPair} {pp2 : PPair},
    (c2, pos2) ∈ addPair m c pp → pp2 ∈ pos2 →
    (∃ pos, (c2, pos) ∈ m ∧ pp2 ∈ pos) ∨ (c2 = c ∧ pp2 = pp)
  | [], c, pp, c2, pos2, pp2, hm, hp => by
    simp only [addPair, List.mem_singleton, Prod.mk.injEq] at hm
    obtain ⟨rfl, rfl⟩ := hm
    right
    exact ⟨rfl, List.mem_singleton.mp hp⟩
  | (c', pos) :: rest, c, pp, c2, pos2, pp2, hm, hp => by
    by_cases hc : c' = c
    · rw [addPair, if_pos hc] at hm
      rcases List.mem_cons.mp hm with heq | hmem
      · simp only [Prod.mk.injEq] at heq
        obtain ⟨rfl, rfl⟩ := heq
        rcases List.mem_append.mp hp with hin | hin
        · exact Or.inl ⟨pos, List.mem_cons_self _ _, hin⟩
        · exact Or.inr ⟨hc, List.mem_singleton.mp hin⟩
      · exact Or.inl ⟨pos2, List.mem_cons_of_mem _ hmem, hp⟩
    · rw [addPair, if_neg hc] at hm
      rcases List.mem_cons.mp hm with heq | hmem
      · exact Or.inl ⟨pos2, by rw [heq]; exact List.mem_cons_self _ _, hp⟩
      · rcases addPair_mem rest c pp hmem hp with ⟨pos3, h3, hp3⟩ | hnew
        · exact Or.inl ⟨pos3, List.mem_cons_of_mem _ h3, hp3⟩
        · exact Or.inr hnew

/-- What a recorded (customer, pair) entry of `customer_product_map` means:
some emitted item of some Delivered-or-Shipped order of that customer carries
that product, and the pair records that order's date. -/
def MapEntryOK (os : List OrderRec) (its : List OrderItem) (c : Nat)
    (pp : PPair) : Prop :=
  ∃ it ∈ its, ∃ o ∈ os, o.order_id = it.order_id ∧ o.customer_id = c ∧
    pp.product_id = it.product_id ∧ pp.order_date = o.order_date ∧
    (o.order_status = "Delivered" ∨ o.order_status = "Shipped")

/-- Soundness of the map construction: every pair recorded under a customer
stems from an eligible (item, order) combination. -/
theorem buildMap_sound (os : List OrderRec) (its0 : List OrderItem) :
    ∀ (its : List OrderItem) (m : List (Nat × List PPair)),
      (∀ it ∈ its, it ∈ its0) →
      (∀ c pos pp, (c, pos) ∈ m → pp ∈ pos → MapEntryOK os its0 c pp) →
      ∀ c pos pp, (c, pos) ∈ buildMap os its m → pp ∈ pos →
        MapEntryOK os its0 c pp
  | [], m, _, hm, c, pos, pp, hmem, hp => hm c pos pp (by rwa [buildMap] at hmem) hp
  | it :: its, m, hsub, hm, c, pos, pp, hmem, hp => by
    rw [buildMap] at hmem
    cases hfind : os.find? (fun o => o.order_id == it.order_id) with
    | none =>
      rw [hfind] at hmem
      exact buildMap_sound os its0 its m
        (fun x hx => hsub x (List.mem_cons_of_mem _ hx)) hm c pos pp hmem hp
    | some o =>
      rw [hfind] at hmem
      dsimp only at hmem
      by_cases hst : o.order_status = "Delivered" ∨ o.order_status = "Shipped"
      · rw [if_pos hst] at hmem
        refine buildMap_sound os its0 its _
          (fun x hx => hsub x (List.mem_cons_of_mem _ hx)) ?_ c pos pp hmem hp
        intro c2 pos2 pp2 h2 hp2
        rcases addPair_mem m o.customer_id _ h2 hp2 with ⟨pos3, h3, hp3⟩ | ⟨hc2, hpp2⟩
        · exact hm c2 pos3 pp2 h3 hp3
        · subst hc2 hpp2
          refine ⟨it, hsub it (List.mem_cons_self _ _), o,
            List.mem_of_find?_eq_some hfind, ?_, rfl, rfl, rfl, hst⟩
          have := List.find?_some hfind
          rwa [beq_iff_eq] at this
      · rw [if_neg hst] at hmem
        exact buildMap_sound os its0 its m
          (fun x hx => hsub x (List.mem_cons_of_mem _ hx)) hm c pos pp hmem hp

/-- Every entry of the finished `customer_product_map` is an eligible
purchase of the run. -/
theorem buildMap_entries {os : List OrderRec} {its : List OrderItem}
    {c : Nat} {pos : List PPair} {pp : PPair}
    (hmem : (c, pos) ∈ buildMap os its []) (hp : pp ∈ pos) :
    MapEntryOK os its c pp :=
  buildMap_sound os its its [] (fun _ h => h)
    (fun _ _ _ h => absurd h (List.not_mem_nil _)) c pos pp hmem hp

/-- Bookkeeping of the inner review loop: the counter advances by exactly the
number of emitted reviews, and never past the cap once below it. -/
theorem genReviewsForCustomer_count (g : Oracle) (cid : Nat) :
    ∀ (pps : List PPair) (t rid cnt : Nat),
      (genReviewsForCustomer g cid pps t rid cnt).2.2.2
          = cnt + (genReviewsForCustomer g cid pps t rid cnt).1.length ∧
        cnt + (genReviewsForCustomer g cid pps t rid cnt).1.length
          ≤ max cnt 200
  | [], t, rid, cnt => by simp [genReviewsForCustomer]
  | pp :: pps, t, rid, cnt => by
    by_cases hc : 200 ≤ cnt
    · rw [genReviewsForCustomer, if_pos hc]
      simp
    · rw [genReviewsForCustomer, if_neg hc]
      have ih := genReviewsForCustomer_count g cid pps (t + 3) (rid + 1) (cnt + 1)
      dsimp only
      simp only [List.length_cons]
      omega

/-- Review identifiers of the inner loop are consecutive from the running
counter, which advances by the number of emitted reviews. -/
theorem genReviewsForCustomer_ids (g : Oracle) (cid : Nat) :
    ∀ (pps : List PPair) (t rid cnt : Nat),
      (genReviewsForCustomer g cid pps t rid cnt).1.map (fun rv => rv.review_id)
          = List.range' rid (genReviewsForCustomer g cid pps t rid cnt).1.length ∧
        (genReviewsForCustomer g cid pps t rid cnt).2.2.1
          = rid + (genReviewsForCustomer g cid pps t rid cnt).1.length
  | [], t, rid, cnt => by simp [genReviewsForCustomer]
  | pp :: pps, t, rid, cnt => by
    by_cases hc : 200 ≤ cnt
    · rw [genReviewsForCustomer, if_pos hc]
      simp
    · rw [genReviewsForCustomer, if_neg hc]
      have ih := genReviewsForCustomer_ids g cid pps (t + 3) (rid + 1) (cnt + 1)
      dsimp only
      simp only [List.length_cons, List.map_cons]
      refine ⟨?_, by omega⟩
      rw [ih.1, List.range'_succ]

/-- Provenance of the inner loop's reviews: each emitted review carries the
customer being processed, the product of one of the listed pairs, and a date
1 to 30 days after that pair's order date. -/
theorem genReviewsForCustomer_src (g : Oracle) (hval : g.Valid) (cid : Nat) :
    ∀ (pps : List PPair) (t rid cnt : Nat),
      ∀ rv ∈ (genReviewsForCustomer g cid pps t rid cnt).1,
        rv.customer_id = cid ∧
        ∃ pp ∈ pps, rv.product_id = pp.product_id ∧
          ∃ d : Nat, 1 ≤ d ∧ d ≤ 30 ∧ rv.review_date = pp.order_date + (d : Int)
  | [], t, rid, cnt => by simp [genReviewsForCustomer]
  | pp :: pps, t, rid, cnt => by
    by_cases hc : 200 ≤ cnt
    · rw [genReviewsForCustomer, if_pos hc]
      intro rv hrv
      exact absurd hrv (List.not_mem_nil rv)
    · rw [genReviewsForCustomer, if_neg hc]
      intro rv hrv
      dsimp only at hrv
      rcases List.mem_cons.mp hrv with rfl | hmem
      · exact ⟨rfl, pp, List.mem_cons_self _ _, rfl, g.randint (t + 2) 1 30,
          (hval.1 (t + 2) 1 30 (by omega)).1, (hval.1 (t + 2) 1 30 (by omega)).2,
          rfl⟩
      · obtain ⟨h1, pp2, hpp2, hrest⟩ :=
          genReviewsForCustomer_src g hval cid pps (t + 3) (rid + 1) (cnt + 1) rv hmem
        exact ⟨h1, pp2, List.mem_cons_of_mem _ hpp2, hrest⟩

/-- The inner loop emits nothing once the cap is reached. -/
theorem genReviewsForCustomer_stop (g : Oracle) (cid : Nat)
    (pps : List PPair) (t rid cnt : Nat) (hc : 200 ≤ cnt) :
    genReviewsForCustomer g cid pps t rid cnt = ([], t, rid, cnt) := by
  cases pps with
  | nil => rfl
  | cons pp pps => rw [genReviewsForCustomer, if_pos hc]

/-- The outer review loop breaks before touching a customer once the cap is
reached: nothing further is emitted and no further random draw happens. -/
theorem genReviewsAll_stop (g : Oracle) (m : List (Nat × List PPair))
    (t rid cnt : Nat) (hc : 200 ≤ cnt) :
    genReviewsAll g m t rid cnt = some ([], t, rid, cnt) := by
  cases m with
  | nil => rfl
  | cons e rest =>
    obtain ⟨cid, pos⟩ := e
    rw [genReviewsAll, if_pos hc]

/-- Bookkeeping of the outer review loop: the counter advances by exactly the
number of emitted reviews and never exceeds the cap once at or below it. -/
theorem genReviewsAll_count {g : Oracle} {m : List (Nat × List PPair)}
    {t rid cnt : Nat} {revs : List Review} {t3 rid3 cnt3 : Nat}
    (h : genReviewsAll g m t rid cnt = some (revs, t3, rid3, cnt3)) :
    cnt3 = cnt + revs.length ∧ cnt + revs.length ≤ max cnt 200 := by
  induction m generalizing t rid cnt revs t3 rid3 cnt3 with
  | nil =>
    simp only [genReviewsAll, Option.some.injEq, Prod.mk.injEq] at h
    obtain ⟨h1, h2, h3, h4⟩ := h
    rw [← h1, ← h4]
    simp
  | cons e rest ih =>
    obtain ⟨cid, pos⟩ := e
    simp only [genReviewsAll] at h
    split at h
    · simp only [Option.some.injEq, Prod.mk.injEq] at h
      obtain ⟨h1, h2, h3, h4⟩ := h
      rw [← h1, ← h4]
      simp
    · split at h
      · exact absurd h (by simp)
      · rename_i sel hsel
        split at h
        · exact absurd h (by simp)
        · rename_i revs2 t3b rid3b cnt3b hrec
          simp only [Option.some.injEq, Prod.mk.injEq] at h
          obtain ⟨h1, h2, h3, h4⟩ := h
          obtain ⟨hin1, hin2⟩ := genReviewsForCustomer_count g cid sel (t + 2) rid cnt
          obtain ⟨ih1, ih2⟩ := ih hrec
          rw [← h1, ← h4, List.length_append]
          omega

/-- The outer review loop never fails: the sample size passed to
`random.sample` is clamped to the pool length by `min`, so the sampling
precondition always holds and generation proceeds for every input. -/
theorem genReviewsAll_total (g : Oracle) (m : List (Nat × List PPair))
    (t rid cnt : Nat) : (genReviewsAll g m t rid cnt).isSome = true := by
  induction m generalizing t rid cnt with
  | nil => rfl
  | cons e rest ih =>
    obtain ⟨cid, pos⟩ := e
    rw [genReviewsAll]
    split
    · rfl
    · dsimp only
      split
      · rename_i hnone
        exact absurd hnone
          (by rw [sampleListChecked, if_pos (min_le_right _ _)]; simp)
      · rename_i sel hsel
        split
        · rename_i hrec
          have htot := ih (genReviewsForCustomer g cid sel (t + 2) rid cnt).2.1
            (genReviewsForCustomer g cid sel (t + 2) rid cnt).2.2.1
            (genReviewsForCustomer g cid sel (t + 2) rid cnt).2.2.2
          rw [hrec] at htot
          exact absurd htot (by simp)
        · rfl

/-- Review identifiers across the outer loop are consecutive from the
initial counter value, which finishes advanced by the number of reviews. -/
theorem genReviewsAll_ids {g : Oracle} {m : List (Nat × List PPair)}
    {t rid cnt : Nat} {revs : List Review} {t3 rid3 cnt3 : Nat}
    (h : genReviewsAll g m t rid cnt = some (revs, t3, rid3, cnt3)) :
    revs.map (fun rv => rv.review_id) = List.range' rid revs.length ∧
      rid3 = rid + revs.length := by
  induction m generalizing t rid cnt revs t3 rid3 cnt3 with
  | nil =>
    simp only [genReviewsAll, Option.some.injEq, Prod.mk.injEq] at h
    obtain ⟨h1, h2, h3, h4⟩ := h
    rw [← h1, ← h3]
    simp
  | cons e rest ih =>
    obtain ⟨cid, pos⟩ := e
    simp only [genReviewsAll] at h
    split at h
    · simp only [Option.some.injEq, Prod.mk.injEq] at h
      obtain ⟨h1, h2, h3, h4⟩ := h
      rw [← h1, ← h3]
      simp
    · split at h
      · exact absurd h (by simp)
      · rename_i sel hsel
        split at h
        · exact absurd h (by simp)
        · rename_i revs2 t3b rid3b cnt3b hrec
          simp only [Option.some.injEq, Prod.mk.injEq] at h
          obtain ⟨h1, h2, h3, h4⟩ := h
          obtain ⟨hi1, hi2⟩ := genReviewsForCustomer_ids g cid sel (t + 2) rid cnt
          obtain ⟨ih1, ih2⟩ := ih hrec
          rw [← h1, ← h3]
          constructor
          · rw [List.map_append, hi1, ih1, hi2, List.length_append]
            have h5 := List.range'_append rid
              (genReviewsForCustomer g cid sel (t + 2) rid cnt).1.length
              revs2.length 1
            simp only [one_mul] at h5
            rw [h5]
            congr 1
            omega
          · rw [List.length_append]
            omega

/-- Provenance across the outer loop: every emitted review's customer and
product stem from a recorded (customer, pair) entry of the map, with the
review date 1 to 30 days after the pair's order date. -/
theorem genReviewsAll_src {g : Oracle} (hval : g.Valid)
    {m : List (Nat × List PPair)} {t rid cnt : Nat}
    {revs : List Review} {t3 rid3 cnt3 : Nat}
    (h : genReviewsAll g m t rid cnt = some (revs, t3, rid3, cnt3)) :
    ∀ rv ∈ revs, ∃ cid pos, (cid, pos) ∈ m ∧ rv.customer_id = cid ∧
      ∃ pp ∈ pos, rv.product_id = pp.product_id ∧
        ∃ d : Nat, 1 ≤ d ∧ d ≤ 30 ∧
          rv.review_date = pp.order_date + (d : Int) := by
  induction m generalizing t rid cnt revs t3 rid3 cnt3 with
  | nil =>
    simp only [genReviewsAll, Option.some.injEq, Prod.mk.injEq] at h
    obtain ⟨h1, h2, h3, h4⟩ := h
    rw [← h1]
    intro rv hrv
    exact absurd hrv (List.not_mem_nil rv)
  | cons e rest ih =>
    obtain ⟨cid, pos⟩ := e
    simp only [genReviewsAll] at h
    split at h
    · simp only [Option.some.injEq, Prod.mk.injEq] at h
      obtain ⟨h1, h2, h3, h4⟩ := h
      rw [← h1]
      intro rv hrv
      exact absurd hrv (List.not_mem_nil rv)
    · split at h
      · exact absurd h (by simp)
      · rename_i sel hsel
        split at h
        · exact absurd h (by simp)
        · rename_i revs2 t3b rid3b cnt3b hrec
          simp only [Option.some.injEq, Prod.mk.injEq] at h
          obtain ⟨h1, h2, h3, h4⟩ := h
          rw [← h1]
          intro rv hrv
          rcases List.mem_append.mp hrv with hin | hin
          · obtain ⟨hcid, pp, hpp, hprod, d, hd1, hd2, hdate⟩ :=
              genReviewsForCustomer_src g hval cid sel (t + 2) rid cnt rv hin
            obtain ⟨hk, hseleq⟩ := sampleListChecked_some hsel
            have hsub : sel.Subperm pos := by
              rw [hseleq]
              exact (hval.2.2.1 (t + 1) pos _ hk).2
            exact ⟨cid, pos, List.mem_cons_self _ _, hcid, pp,
              hsub.subset hpp, hprod, d, hd1, hd2, hdate⟩
          · obtain ⟨cid2, pos2, hmem2, hrest⟩ := ih hrec rv hin
            exact ⟨cid2, pos2, List.mem_cons_of_mem _ hmem2, hrest⟩

/-- Inversion of a successful run: the store's customers and products are the
inputs passed through untouched, its items and rewritten orders come from the
per-order pass started at item id 5001, and its reviews from the review pass
over the map of those outputs, started at review id 6001 with count 0. -/
theorem runGenerator_inv {g : Oracle} {cs : List Customer} {ps : List Product}
    {os : List OrderRec} {st : DataStore}
    (h : runGenerator g cs ps os = some st) :
    st.customers = cs ∧ st.products = ps ∧
    ∃ t iid3, genAllOrders g ps os 0 5001
        = some (st.order_items, st.orders, t, iid3) ∧
      ∃ t4 rid4 cnt4,
        genReviewsAll g (buildMap st.orders st.order_items []) t 6001 0
          = some (st.reviews, t4, rid4, cnt4) := by
  unfold runGenerator at h
  cases ha : genAllOrders g ps os 0 5001 with
  | none => rw [ha] at h; exact absurd h (by simp)
  | some r1 =>
    obtain ⟨items, outs, t, iid3⟩ := r1
    rw [ha] at h
    dsimp only at h
    cases hr : genReviewsAll g (buildMap outs items []) t 6001 0 with
    | none => rw [hr] at h; exact absurd h (by simp)
    | some r2 =>
      obtain ⟨revs, t4, rid4, cnt4⟩ := r2
      rw [hr] at h
      dsimp only at h
      have hst := Option.some.inj h
      rw [← hst]
      exact ⟨rfl, rfl, t, iid3, rfl, t4, rid4, cnt4, hr⟩

/-- Claim C1 (total reconciliation): in a successful run over orders with
pairwise-distinct identifiers, for every rewritten order the sum of the
stored subtotals of its OrderItems equals its rewritten `total_amount`
exactly, to the cent, regardless of status — the per-item stored values and
the accumulated sum cannot drift apart. -/
theorem C1_total_reconciliation (g : Oracle) (cs : List Customer)
    (ps : List Product) (os : List OrderRec) (st : DataStore)
    (hnd : (os.map (fun o => o.order_id)).Nodup)
    (hrun : runGenerator g cs ps os = some st) :
    ∀ out ∈ st.orders,
      ((st.order_items.filter (fun it => it.order_id == out.order_id)).map
        (fun it => it.subtotal)).sum = out.total_amount := by
  obtain ⟨-, -, t, iid3, ha, -⟩ := runGenerator_inv hrun
  exact genAllOrders_sum hnd ha

/-- Concrete instance of C1: one Delivered order against the five-product
catalog; the single item's $10.00 subtotal sums to the rewritten total. -/
theorem C1_total_reconciliation_witness :
    (([exOrder].map (fun o => o.order_id)).Nodup) ∧
    runGenerator takeOracle [] exProducts [exOrder] = some exStore ∧
    ((exStore.order_items.filter
        (fun it => it.order_id == exOutOrder.order_id)).map
      (fun it => it.subtotal)).sum = exOutOrder.total_amount :=
  ⟨by decide, by decide,
    C1_total_reconciliation takeOracle [] exProducts [exOrder] exStore
      (by decide) (by decide) exOutOrder (by decide)⟩

/-- Claim C2 (review eligibility): in a successful run under a valid oracle,
every emitted review's (customer, product) pair is backed by at least one
emitted OrderItem belonging (via `order_id`) to an order of that same
customer whose status is Shipped or Delivered. -/
theorem C2_review_eligibility (g : Oracle) (cs : List Customer)
    (ps : List Product) (os : List OrderRec) (st : DataStore)
    (hval : g.Valid) (hrun : runGenerator g cs ps os = some st) :
    ∀ rv ∈ st.reviews, ∃ it ∈ st.order_items, ∃ o ∈ st.orders,
      o.order_id = it.order_id ∧ o.customer_id = rv.customer_id ∧
      it.product_id = rv.product_id ∧
      (o.order_status = "Shipped" ∨ o.order_status = "Delivered") := by
  obtain ⟨-, -, t, iid3, ha, t4, rid4, cnt4, hr⟩ := runGenerator_inv hrun
  intro rv hrv
  obtain ⟨cid, pos, hmem, hcid, pp, hpp, hprod, d, hd1, hd2, hdate⟩ :=
    genReviewsAll_src hval hr rv hrv
  obtain ⟨it, hit, o, ho, hoid, hocust, hppid, hppdate, hstat⟩ :=
    buildMap_entries hmem hpp
  exact ⟨it, hit, o, ho, hoid, hocust.trans hcid.symm,
    (hprod.trans hppid).symm, hstat.symm⟩

/-- Concrete instance of C2: the single review of the example run is backed
by the item of the Delivered order 101. -/
theorem C2_review_eligibility_witness :
    takeOracle.Valid ∧
    (∃ it ∈ exStore.order_items, ∃ o ∈ exStore.orders,
      o.order_id = it.order_id ∧ o.customer_id = exReview.customer_id ∧
      it.product_id = exReview.product_id ∧
      (o.order_status = "Shipped" ∨ o.order_status = "Delivered")) :=
  ⟨takeOracle_valid,
    C2_review_eligibility takeOracle [] exProducts [exOrder] exStore
      takeOracle_valid (by decide) exReview (by decide)⟩

/-- Claim C3 (cap enforcement): a successful run emits at most 200 reviews,
and once the count has reached 200 both the outer per-customer loop and the
inner per-pair loop stop immediately, emitting nothing further even though
eligible pairs may remain. -/
theorem C3_review_cap (g : Oracle) (cs : List Customer) (ps : List Product)
    (os : List OrderRec) (st : DataStore) (m : List (Nat × List PPair))
    (cid : Nat) (pps : List PPair) (t rid cnt : Nat) :
    (runGenerator g cs ps os = some st → st.reviews.length ≤ 200) ∧
    (200 ≤ cnt → genReviewsAll g m t rid cnt = some ([], t, rid, cnt) ∧
      genReviewsForCustomer g cid pps t rid cnt = ([], t, rid, cnt)) := by
  constructor
  · intro hrun
    obtain ⟨-, -, t2, iid3, ha, t4, rid4, cnt4, hr⟩ := runGenerator_inv hrun
    have hc2 := (genReviewsAll_count hr).2
    simpa using hc2
  · intro hc
    exact ⟨genReviewsAll_stop g m t rid cnt hc,
      genReviewsForCustomer_stop g cid pps t rid cnt hc⟩

/-- Concrete instance of C3: the example run emits one review (at most 200),
and at count 200 both loops return immediately with nothing emitted. -/
theorem C3_review_cap_witness :
    exStore.reviews.length ≤ 200 ∧
    genReviewsAll takeOracle [(1, [⟨1, 100⟩])] 0 6001 200
      = some ([], 0, 6001, 200) ∧
    genReviewsForCustomer takeOracle 1 [⟨1, 100⟩] 0 6001 200
      = ([], 0, 6001, 200) :=
  ⟨(C3_review_cap takeOracle [] exProducts [exOrder] exStore
      [(1, [⟨1, 100⟩])] 1 [⟨1, 100⟩] 0 6001 200).1 (by decide),
   ((C3_review_cap takeOracle [] exProducts [exOrder] exStore
      [(1, [⟨1, 100⟩])] 1 [⟨1, 100⟩] 0 6001 200).2 (by decide)).1,
   ((C3_review_cap takeOracle [] exProducts [exOrder] exStore
      [(1, [⟨1, 100⟩])] 1 [⟨1, 100⟩] 0 6001 200).2 (by decide)).2⟩

/-- Claim C4 (item count bounds): in a successful run under a valid oracle,
with distinct product identifiers in the catalog and distinct order
identifiers, every Cancelled order receives between 1 and 3 OrderItems and
every other order between 1 and 5, over pairwise distinct products. -/
theorem C4_item_count_bounds (g : Oracle) (cs : List Customer)
    (ps : List Product) (os : List OrderRec) (st : DataStore)
    (hval : g.Valid)
    (hndp : (ps.map (fun p => p.product_id)).Nodup)
    (hnd : (os.map (fun o => o.order_id)).Nodup)
    (hrun : runGenerator g cs ps os = some st) :
    ∀ out ∈ st.orders,
      1 ≤ (st.order_items.filter (fun it => it.order_id == out.order_id)).length ∧
      (if out.order_status = "Cancelled" then
        (st.order_items.filter (fun it => it.order_id == out.order_id)).length ≤ 3
       else
        (st.order_items.filter (fun it => it.order_id == out.order_id)).length ≤ 5) ∧
      ((st.order_items.filter (fun it => it.order_id == out.order_id)).map
        (fun it => it.product_id)).Nodup := by
  obtain ⟨-, -, t, iid3, ha, -⟩ := runGenerator_inv hrun
  intro out hout
  obtain ⟨h1, h2, h3, h4⟩ := genAllOrders_counts hval hndp hnd ha out hout
  refine ⟨h1, ?_, h4⟩
  by_cases hc : out.order_status = "Cancelled"
  · rw [if_pos hc]
    exact h3 hc
  · rw [if_neg hc]
    exact h2

/-- Concrete instance of C4: the example Delivered order receives one item
(within 1..5) over distinct products. -/
theorem C4_item_count_bounds_witness :
    takeOracle.Valid ∧
    (exProducts.map (fun p => p.product_id)).Nodup ∧
    ([exOrder].map (fun o => o.order_id)).Nodup ∧
    (1 ≤ (exStore.order_items.filter
        (fun it => it.order_id == exOutOrder.order_id)).length ∧
      (if exOutOrder.order_status = "Cancelled" then
        (exStore.order_items.filter
          (fun it => it.order_id == exOutOrder.order_id)).length ≤ 3
       else
        (exStore.order_items.filter
          (fun it => it.order_id == exOutOrder.order_id)).length ≤ 5) ∧
      ((exStore.order_items.filter
          (fun it => it.order_id == exOutOrder.order_id)).map
        (fun it => it.product_id)).Nodup) :=
  ⟨takeOracle_valid, by decide, by decide,
    C4_item_count_bounds takeOracle [] exProducts [exOrder] exStore
      takeOracle_valid (by decide) (by decide) (by decide) exOutOrder (by decide)⟩

/-- Claim C5 (review date ordering): in a successful run under a valid
oracle, every review's date is its triggering order's date plus an integer
between 1 and 30 days — hence strictly later, by at most 30 days. -/
theorem C5_review_dates (g : Oracle) (cs : List Customer)
    (ps : List Product) (os : List OrderRec) (st : DataStore)
    (hval : g.Valid) (hrun : runGenerator g cs ps os = some st) :
    ∀ rv ∈ st.reviews, ∃ o ∈ st.orders, ∃ it ∈ st.order_items,
      o.order_id = it.order_id ∧ o.customer_id = rv.customer_id ∧
      it.product_id = rv.product_id ∧
      (∃ d : Nat, 1 ≤ d ∧ d ≤ 30 ∧
        rv.review_date = o.order_date + (d : Int)) ∧
      o.order_date < rv.review_date ∧
      rv.review_date ≤ o.order_date + 30 := by
  obtain ⟨-, -, t, iid3, ha, t4, rid4, cnt4, hr⟩ := runGenerator_inv hrun
  intro rv hrv
  obtain ⟨cid, pos, hmem, hcid, pp, hpp, hprod, d, hd1, hd2, hdate⟩ :=
    genReviewsAll_src hval hr rv hrv
  obtain ⟨it, hit, o, ho, hoid, hocust, hppid, hppdate, hstat⟩ :=
    buildMap_entries hmem hpp
  have hdate2 : rv.review_date = o.order_date + (d : Int) := by
    rw [hdate, hppdate]
  refine ⟨o, ho, it, hit, hoid, hocust.trans hcid.symm,
    (hprod.trans hppid).symm, ⟨d, hd1, hd2, hdate2⟩, ?_, ?_⟩
  · rw [hdate2]
    omega
  · rw [hdate2]
    omega

/-- Concrete instance of C5: the example review is dated one day after its
Delivered order. -/
theorem C5_review_dates_witness :
    takeOracle.Valid ∧
    (∃ o ∈ exStore.orders, ∃ it ∈ exStore.order_items,
      o.order_id = it.order_id ∧ o.customer_id = exReview.customer_id ∧
      it.product_id = exReview.product_id ∧
      (∃ d : Nat, 1 ≤ d ∧ d ≤ 30 ∧
        exReview.review_date = o.order_date + (d : Int)) ∧
      o.order_date < exReview.review_date ∧
      exReview.review_date ≤ o.order_date + 30) :=
  ⟨takeOracle_valid,
    C5_review_dates takeOracle [] exProducts [exOrder] exStore
      takeOracle_valid (by decide) exReview (by decide)⟩

/-- Claim C6 (identifier monotonicity/uniqueness): in a successful run, the
OrderItem identifiers in emission order are exactly 5001, 5002, … and the
Review identifiers exactly 6001, 6002, …; both sequences are contiguous,
increasing and duplicate-free. -/
theorem C6_identifier_sequences (g : Oracle) (cs : List Customer)
    (ps : List Product) (os : List OrderRec) (st : DataStore)
    (hrun : runGenerator g cs ps os = some st) :
    st.order_items.map (fun it => it.order_item_id)
        = List.range' 5001 st.order_items.length ∧
      (st.order_items.map (fun it => it.order_item_id)).Nodup ∧
      st.reviews.map (fun rv => rv.review_id)
        = List.range' 6001 st.reviews.length ∧
      (st.reviews.map (fun rv => rv.review_id)).Nodup := by
  obtain ⟨-, -, t, iid3, ha, t4, rid4, cnt4, hr⟩ := runGenerator_inv hrun
  have h1 := (genAllOrders_ids ha).1
  have h2 := (genReviewsAll_ids hr).1
  refine ⟨h1, ?_, h2, ?_⟩
  · rw [h1]
    exact List.nodup_range' _ _
  · rw [h2]
    exact List.nodup_range' _ _

/-- Concrete instance of C6: the example run's single item and single review
carry identifiers 5001 and 6001. -/
theorem C6_identifier_sequences_witness :
    runGenerator takeOracle [] exProducts [exOrder] = some exStore ∧
    exStore.order_items.map (fun it => it.order_item_id)
        = List.range' 5001 exStore.order_items.length ∧
    exStore.reviews.map (fun rv => rv.review_id)
        = List.range' 6001 exStore.reviews.length :=
  ⟨by decide,
    (C6_identifier_sequences takeOracle [] exProducts [exOrder] exStore
      (by decide)).1,
    (C6_identifier_sequences takeOracle [] exProducts [exOrder] exStore
      (by decide)).2.2.1⟩

/-- Claim C7 (review-sampling clamping): review generation never fails for
any map, tick, id counter and count: the requested per-customer review count
is clamped to the pool size via `min(num_reviews, len(product_orders))`
before `random.sample`, whose precondition therefore always holds — the loop
proceeds instead of raising, whatever the computed count. -/
theorem C7_sampling_clamped (g : Oracle) (m : List (Nat × List PPair))
    (t rid cnt : Nat) : (genReviewsAll g m t rid cnt).isSome = true :=
  genReviewsAll_total g m t rid cnt

/-- Claim C8 counterexample: the claim states that an empty customers,
products or orders record set aborts the run with no output; but the run
below has an empty customers set, completes, and writes full output (the
generator never reads the customers list).  Hence "any of the three input
record sets … empty → fatal" is false on the code. -/
theorem C8_empty_input_counterexample :
    (runGenerator takeOracle [] exProducts [exOrder]).isSome = true := by
  decide

/-- Claim C8 amended: an empty products set is fatal whenever at least one
order exists (`random.sample` of 1..5 products from an empty catalog
raises), and the abort happens before any output is written; an empty
customers or orders set, however, is not fatal. -/
theorem C8_empty_products_fatal (g : Oracle) (cs : List Customer)
    (os : List OrderRec) (hval : g.Valid) (hne : os ≠ []) :
    runGenerator g cs [] os = none := by
  cases os with
  | nil => exact absurd rfl hne
  | cons o os =>
    have hkn : ¬ (numItemsFor g 0 o ≤ ([] : List Product).length) := by
      have := (numItemsFor_bounds (t := 0) (o := o) hval).1
      simp only [List.length_nil]
      omega
    have hfail : genForOrder g [] o 0 5001 = none := by
      unfold genForOrder
      rw [sampleListChecked, if_neg hkn]
    have hall : genAllOrders g [] (o :: os) 0 5001 = none := by
      rw [genAllOrders, hfail]
    unfold runGenerator
    rw [hall]

/-- Concrete instance of the amended C8: one order against an empty catalog
aborts the run. -/
theorem C8_empty_products_fatal_witness :
    takeOracle.Valid ∧ ([exOrder] ≠ ([] : List OrderRec)) ∧
    runGenerator takeOracle [] [] [exOrder] = none :=
  ⟨takeOracle_valid, by decide,
    C8_empty_products_fatal takeOracle [] [exOrder] takeOracle_valid
      (by decide)⟩

/-- Claim C9 (frame effect): a successful run leaves the customers and
products record sets untouched and rewrites the orders row by row, changing
only `total_amount`: identifier, customer, date, status, shipping address
and payment method are written back unchanged for every order. -/
theorem C9_frame (g : Oracle) (cs : List Customer) (ps : List Product)
    (os : List OrderRec) (st : DataStore)
    (hrun : runGenerator g cs ps os = some st) :
    st.customers = cs ∧ st.products = ps ∧
    List.Forall₂ (fun o out =>
      out.order_id = o.order_id ∧ out.customer_id = o.customer_id ∧
      out.order_date = o.order_date ∧ out.order_status = o.order_status ∧
      out.shipping_address = o.shipping_address ∧
      out.payment_method = o.payment_method) os st.orders := by
  obtain ⟨h1, h2, t, iid3, ha, -⟩ := runGenerator_inv hrun
  exact ⟨h1, h2, genAllOrders_frame ha⟩

/-- Concrete instance of C9: the example run passes customers and products
through unchanged and only rewrites the order's total. -/
theorem C9_frame_witness :
    exStore.customers = ([] : List Customer) ∧
    exStore.products = exProducts ∧
    List.Forall₂ (fun o out =>
      out.order_id = o.order_id ∧ out.customer_id = o.customer_id ∧
      out.order_date = o.order_date ∧ out.order_status = o.order_status ∧
      out.shipping_address = o.shipping_address ∧
      out.payment_method = o.payment_method) [exOrder] exStore.orders :=
  C9_frame takeOracle [] exProducts [exOrder] exStore (by decide)

/-- Claim C10 (duplicate (customer, product) reviews are possible): the map
deduplicates only (product, order_date) pairs inside one customer's sampled
list, so a customer with five Delivered one-item orders of the same product
on five distinct dates can draw two reviews of that one product: the run
below emits reviews 6001 and 6002, distinct records sharing the same
(customer, product) pair (1, 1) — uniqueness of (customer, product) across
reviews does not hold. -/
theorem C10_duplicate_review_pairs :
    runGenerator takeOracle [] dupProducts dupOrders = some dupStore ∧
    dupStore.reviews.map (fun rv => (rv.review_id, rv.customer_id, rv.product_id))
        = [(6001, 1, 1), (6002, 1, 1)] ∧
    ∃ r1 ∈ dupStore.reviews, ∃ r2 ∈ dupStore.reviews,
      r1.review_id ≠ r2.review_id ∧ r1.customer_id = r2.customer_id ∧
      r1.product_id = r2.product_id := by
  refine ⟨by decide, by decide, ?_⟩
  decide
